import Mathlib

/-!
# Verification of the CME recommendation pipeline

Shallow embedding of the personalization/retrieval pipeline of the
`mycertiq_demo` backend:

* `backend/app/schemas/ask_cme.py` — request/response shapes,
* `backend/app/models/cme_event.py` — entity metadata rows,
* `backend/app/services/physician_profile.py` — `build_effective_physician_profile`,
* `backend/app/services/cme_query.py` — `run_cme_query`.

Modelling conventions:

* Python `float` score arithmetic is embedded as `ℚ` (all scores in this
  pipeline are sums of small integers and ratios thereof);
* SQL `NULL` / Python `None` becomes `Option`;
* the external collaborators (vector search, relational store, language
  model) are inputs to the embedded pipeline: `chunks` is the similarity
  search response, `DBStore` the read-only relational data, and
  `llm : Option String` the language-model outcome (`none` = any
  exception/timeout, `some s` = a successful completion with content `s`);
* Python string `strip()` / `lower()` become explicit character-list
  trimming over Python's whitespace set and a character-wise lowercase
  map.
-/

/-- Python's default whitespace set for `str.strip()` (space, tab,
newline, carriage return, vertical tab, form feed). -/
def pyWhitespace (c : Char) : Bool :=
  c == ' ' || c == '\t' || c == '\n' || c == '\r' || c == '\x0b' || c == '\x0c'

/-- Python `str.strip()` with no arguments: drop leading and trailing
whitespace. -/
def pyStrip (s : String) : String :=
  ⟨((s.data.dropWhile pyWhitespace).reverse.dropWhile pyWhitespace).reverse⟩

/-- Python `str.lower()` (character-wise lowercase). -/
def pyLower (s : String) : String := ⟨s.data.map Char.toLower⟩

/-- Python truthiness of an `Optional[str]`: `None` and `""` are falsy. -/
def optStrTruthy : Option String → Bool
  | none => false
  | some s => !(s == "")

/-- A similarity-search chunk as consumed by `run_cme_query`
(`ch.get("source_id")`, `ch.get("chunk_text", "")` from the
`/vector/search` response; `source_id` is `Optional[int]`). -/
structure Chunk where
  source_id : Option Int
  chunk_text : String
deriving DecidableEq, Repr

/-- `CMEEvent` ORM row (`backend/app/models/cme_event.py`).  Only the
columns read by the pipeline are embedded.  `title` is `nullable=False`
in the model, hence `String`; the other columns are nullable. -/
structure CMEEvent where
  id : Int
  title : String
  credit_type : Option String
  url : Option String
  credits : Option ℚ
  provider_name : Option String
  format : Option String
  audience : Option String
deriving DecidableEq, Repr

/-- `AskCMERequest` (`backend/app/schemas/ask_cme.py`). -/
structure AskCMERequest where
  question : String
  physician_id : Option Int
  specialty : Option String
  state : Option String
  preferred_format : Option String
  min_credits : Option ℚ
  credit_type : Option String
  travel_ok : Option Bool
deriving DecidableEq, Repr

/-- `CMERecommendation` (`backend/app/schemas/ask_cme.py`). -/
structure CMERecommendation where
  cme_event_id : Int
  title : String
  provider : Option String
  credit_hours : Option ℚ
  url : Option String
  score : Option ℚ
  rank : Nat
  reason : Option String
deriving DecidableEq, Repr

/-- Row of the `physician` ⋈ `specialty` lookup in
`build_effective_physician_profile` (only the field the profile uses). -/
structure PhysicianRow where
  specialty_name : Option String
deriving DecidableEq, Repr

/-- Row of the `physician_preference` lookup. -/
structure PrefRow where
  travel_pref : Option String
  modality_pref : Option String
deriving DecidableEq, Repr

/-- The read-only relational store as seen by the pipeline: the three
profile lookups keyed by physician id, and the `cme_event` table. -/
structure DBStore where
  physicianRow : Int → Option PhysicianRow
  prefRow : Int → Option PrefRow
  completedRows : Int → List (Option Int)
  events : List CMEEvent

/-- The effective physician profile dict built by
`build_effective_physician_profile`. -/
structure Profile where
  physician_id : Option Int
  specialty : Option String
  state : Option String
  preferred_format : Option String
  min_credits : Option ℚ
  credit_type : Option String
  travel_ok : Option Bool
  missing_requirements : List String
  completed_cme_ids : List Int
deriving DecidableEq, Repr

/-- Initial profile dict seeded from the request
(`physician_profile.py` lines 23–33).  Note `travel_ok` starts as
`None`; the request's `travel_ok` field is not consulted anywhere. -/
def seedProfile (request : AskCMERequest) : Profile :=
  { physician_id := request.physician_id
    specialty := request.specialty
    state := request.state
    preferred_format := request.preferred_format
    min_credits := request.min_credits
    credit_type := request.credit_type
    travel_ok := none
    missing_requirements := []
    completed_cme_ids := [] }

/-- Step 1 of the DB merge: physician row + primary specialty, filled
only when the request did not supply a (truthy) specialty. -/
def applyPhysicianRow (db : DBStore) (pid : Int) (p : Profile) : Profile :=
  match db.physicianRow pid with
  | none => p
  | some row =>
    if !optStrTruthy p.specialty && optStrTruthy row.specialty_name then
      { p with specialty := row.specialty_name }
    else p

/-- Step 2 of the DB merge: preference row.  `modality_pref` fills
`preferred_format` only if unset; `travel_pref` of
`no_travel`/`local_only` maps to `travel_ok := false`, anything else
(including `NULL`) to `true` — unconditionally, whenever a preference
row exists. -/
def applyPrefRow (db : DBStore) (pid : Int) (p : Profile) : Profile :=
  match db.prefRow pid with
  | none => p
  | some pr =>
    let p1 :=
      if !optStrTruthy p.preferred_format && optStrTruthy pr.modality_pref then
        { p with preferred_format := pr.modality_pref }
      else p
    let travel_pref := pr.travel_pref.getD ""
    if pyLower travel_pref == "no_travel" || pyLower travel_pref == "local_only" then
      { p1 with travel_ok := some false }
    else
      { p1 with travel_ok := some true }

/-- Step 3 of the DB merge: completed CME ids (dropping `NULL` rows),
and the always-empty `missing_requirements` placeholder. -/
def applyCompleted (db : DBStore) (pid : Int) (p : Profile) : Profile :=
  { p with
      completed_cme_ids := (db.completedRows pid).filterMap id
      missing_requirements := [] }

/-- Final defaults (`physician_profile.py` lines 119–127): normalize a
truthy `preferred_format` to stripped lowercase, and default a still-`None`
`travel_ok` to `true`. -/
def finalizeDefaults (p : Profile) : Profile :=
  let p1 :=
    if optStrTruthy p.preferred_format then
      { p with preferred_format := some (pyLower (pyStrip (p.preferred_format.getD ""))) }
    else p
  if p1.travel_ok == none then { p1 with travel_ok := some true } else p1

/-- `build_effective_physician_profile` (`physician_profile.py`).  The
DB lookups run only under Python's `if pid:` — i.e. when `physician_id`
is present and non-zero. -/
def build_effective_physician_profile (db : DBStore) (request : AskCMERequest) : Profile :=
  let profile := seedProfile request
  let profile :=
    match request.physician_id with
    | none => profile
    | some pid =>
      if pid == 0 then profile
      else applyCompleted db pid (applyPrefRow db pid (applyPhysicianRow db pid profile))
  finalizeDefaults profile

/-- Per-entity aggregation entry (`cme_map` values in `cme_query.py`:
`{"score": float, "chunks": list}`). -/
structure EventEntry where
  score : ℚ
  chunks : List Chunk
deriving DecidableEq, Repr

/-- `entry = cme_map.setdefault(cid, {...}); entry["score"] += score;
entry["chunks"].append(ch)` over an insertion-ordered dict embedded as
an association list (absent key appended at the tail, preserving the
dict's first-occurrence iteration order). -/
def updMap (m : List (Int × EventEntry)) (cid : Int) (s : ℚ) (ch : Chunk) :
    List (Int × EventEntry) :=
  match m with
  | [] => [(cid, ⟨s, [ch]⟩)]
  | (k, e) :: rest =>
    if k == cid then (k, ⟨e.score + s, e.chunks ++ [ch]⟩) :: rest
    else (k, e) :: updMap rest cid s ch

/-- The `for idx, ch in enumerate(chunks)` loop of step 3 of
`run_cme_query`: chunks with `source_id = None` are skipped, the chunk
at 0-based position `idx` contributes `float(total_chunks - idx)` to
its entity's score. -/
def chunkScores (n : Nat) : List Chunk → Nat → List (Int × EventEntry) → List (Int × EventEntry)
  | [], _, m => m
  | ch :: rest, idx, m =>
    match ch.source_id with
    | none => chunkScores n rest (idx + 1) m
    | some cid => chunkScores n rest (idx + 1) (updMap m cid ((n - idx : Nat) : ℚ) ch)

/-- `cme_map` built from the chunk list. -/
def cmeMapOf (chunks : List Chunk) : List (Int × EventEntry) :=
  chunkScores chunks.length chunks 0 []

/-- Stable insert for descending score order: an earlier entry keeps its
place ahead of later entries of equal score. -/
def insertDesc (x : Int × EventEntry) : List (Int × EventEntry) → List (Int × EventEntry)
  | [] => [x]
  | y :: ys => if x.2.score < y.2.score then y :: insertDesc x ys else x :: y :: ys

/-- Stable descending sort by score, the embedding of
`sorted(cme_map.items(), key=score, reverse=True)` (Python's `sorted`
is stable; this insertion sort realizes the same order). -/
def sortDesc : List (Int × EventEntry) → List (Int × EventEntry)
  | [] => []
  | a :: l => insertDesc a (sortDesc l)

/-- `sorted_events` of step 3. -/
def sortedEventsOf (chunks : List Chunk) : List (Int × EventEntry) :=
  sortDesc (cmeMapOf chunks)

/-- `events_by_id.get(cid)` where
`events_by_id = {int(e.id): e for e in events}`: a Python dict
comprehension keeps the last row per key, hence the reversed search.
The `db.query(CMEEvent).filter(id.in_(candidate_ids))` restriction is
immaterial because lookups only ever use candidate ids. -/
def eventsByIdGet (events : List CMEEvent) (cme_id : Int) : Option CMEEvent :=
  events.reverse.find? (fun e => e.id == cme_id)

/-- `_eligible(ev)` from `run_cme_query` step 5, closed over the
profile-derived `completed_cme_ids`, `min_credits`, `preferred_format`
and `credit_type_pref`.  The credit-type block of the source is a
no-op (`pass` — a soft preference reserved for future downranking), so
`credit_type_pref` does not influence the result. -/
def eligible (completed_cme_ids : List Int) (min_credits : Option ℚ)
    (preferred_format : Option String) (credit_type_pref : Option String)
    (ev : CMEEvent) : Bool :=
  -- Exclude CME already completed by this physician
  if completed_cme_ids.contains ev.id then false
  -- Minimum credits filter (`float(ev.credits or 0)`; the conversion
  -- of a numeric column never raises, so the `except` arm is dead)
  else if (match min_credits with
           | some mc => decide (ev.credits.getD 0 < mc)
           | none => false) then false
  -- Preferred format filter (`if preferred_format:` — Python truthiness;
  -- an empty/unknown event format always passes)
  else if (match preferred_format with
           | some pf =>
             if !(pf == "") then
               let ev_fmt := pyLower (pyStrip (ev.format.getD ""))
               !(ev_fmt == "") && !(ev_fmt == pf)
             else false
           | none => false) then false
  else
    -- Credit type preference block: `pass` in the source, never rejects
    let _ := credit_type_pref
    true

/-- The `for cme_id, meta in sorted_events` filter loop of step 5:
skip candidates without metadata, skip ineligible ones, append the
rest, and break once `len(filtered_events) >= max_events` — note the
append happens before the length check. -/
def takeEligible (events : List CMEEvent) (elig : CMEEvent → Bool) (max_events : Nat)
    (count : Nat) : List (Int × EventEntry) → List (Int × EventEntry × CMEEvent)
  | [] => []
  | (cme_id, meta) :: rest =>
    match eventsByIdGet events cme_id with
    | none => takeEligible events elig max_events count rest
    | some ev =>
      if elig ev then
        if count + 1 ≥ max_events then [(cme_id, meta, ev)]
        else (cme_id, meta, ev) :: takeEligible events elig max_events (count + 1) rest
      else takeEligible events elig max_events count rest

/-- The profile-derived filter inputs of `run_cme_query` step 2:
`completed_cme_ids`, `min_credits`, and `preferred_format` re-normalized
to stripped lowercase (`if isinstance(preferred_format, str)`), plus
`credit_type_pref`. -/
def profileFiltersOf (request : AskCMERequest) (db : DBStore) :
    List Int × Option ℚ × Option String × Option String :=
  let profile := build_effective_physician_profile db request
  (profile.completed_cme_ids,
   profile.min_credits,
   profile.preferred_format.map (fun s => pyLower (pyStrip s)),
   profile.credit_type)

/-- `filtered_events` as produced by the normal filter pass of step 5. -/
def filteredNormalEventsOf (request : AskCMERequest) (db : DBStore)
    (chunks : List Chunk) (max_events : Nat) : List (Int × EventEntry × CMEEvent) :=
  let (completed_cme_ids, min_credits, preferred_format, credit_type_pref) :=
    profileFiltersOf request db
  takeEligible db.events
    (eligible completed_cme_ids min_credits preferred_format credit_type_pref)
    max_events 0 (sortedEventsOf chunks)

/-- The over-filtering fallback (`cme_query.py` lines 200–206): the top
`max_events` entries of `sorted_events`, keeping those with metadata
present, ignoring the filter predicate. -/
def fallbackEventsOf (db : DBStore) (chunks : List Chunk) (max_events : Nat) :
    List (Int × EventEntry × CMEEvent) :=
  ((sortedEventsOf chunks).take max_events).filterMap
    (fun p => (eventsByIdGet db.events p.1).map (fun ev => (p.1, p.2, ev)))

/-- `filtered_events` after the fallback: the normal pass if non-empty,
else the unfiltered top events. -/
def filteredEventsOf (request : AskCMERequest) (db : DBStore)
    (chunks : List Chunk) (max_events : Nat) : List (Int × EventEntry × CMEEvent) :=
  let f := filteredNormalEventsOf request db chunks max_events
  if f.isEmpty then fallbackEventsOf db chunks max_events else f

/-- Fixed short-circuit answer for an empty question. -/
def emptyQuestionText : String :=
  "Please provide a non-empty question about what CME you are looking for."

/-- Fixed short-circuit answer when vector search returns no chunks. -/
def noMatchText : String :=
  "I couldn’t find any CME activities that match your question in the current catalog."

/-- Fixed short-circuit answer when no candidates survive even the fallback. -/
def noEligibleText : String :=
  "I found CME content in the system, but none matched the filters/preferences provided."

/-- Fixed fallback answer substituted when the language-model call fails. -/
def llmFallbackText : String :=
  "I found CME activities matching your question, but could not generate a personalized explanation at this moment. Here are the recommended CME activities based on semantic relevance."

/-- Step 7: the answer text.  A successful completion is stripped; any
exception (timeout, quota, malformed response) is caught and replaced
by the fixed fallback sentence. -/
def answerOf (llm : Option String) : String :=
  match llm with
  | some content => pyStrip content
  | none => llmFallbackText

/-- Fixed per-item justification string of step 8. -/
def reasonText : String :=
  "High semantic similarity to your question and alignment with your profile/preferences."

/-- `raw_url or fallback` of step 8 (Python `or`: `None` and `""` both
fall back to the deterministic URL built from the entity id). -/
def urlResolve (raw_url : Option String) (cme_id : Int) : String :=
  match raw_url with
  | none => "https://mycertiq-demo.local/cme/" ++ toString cme_id
  | some s => if s == "" then "https://mycertiq-demo.local/cme/" ++ toString cme_id else s

/-- `max_score = filtered_events[0][1]["score"] if filtered_events else 1.0`. -/
def maxScoreOf : List (Int × EventEntry × CMEEvent) → ℚ
  | [] => 1
  | t :: _ => t.2.1.score

/-- Step 8: `for rank_idx, (cme_id, meta, ev) in enumerate(filtered_events, start=1)`.
`getattr(ev, "title", f"CME {cme_id}")` returns the stored attribute —
the default never fires on an ORM instance, so the title is `ev.title`
verbatim.  `norm_score = raw_score / max_score if max_score else 0.0`. -/
def buildRecs (max_score : ℚ) : Nat → List (Int × EventEntry × CMEEvent) → List CMERecommendation
  | _, [] => []
  | rank_idx, (cme_id, meta, ev) :: rest =>
    { cme_event_id := cme_id
      title := ev.title
      provider := ev.provider_name
      credit_hours := ev.credits
      url := some (urlResolve ev.url cme_id)
      score := some (if max_score == 0 then 0 else meta.score / max_score)
      rank := rank_idx
      reason := some reasonText } :: buildRecs max_score (rank_idx + 1) rest

/-- `run_cme_query` (`cme_query.py`).  The collaborators appear as
inputs: `chunks` is the (successful) `/vector/search` response body,
`db` the relational store, `llm` the language-model outcome.
`vector_top_k` only parametrizes the outgoing search request and is
subsumed by `chunks`; the non-200 vector-search branch raises and is
outside the embedded success paths. -/
def run_cme_query (request : AskCMERequest) (db : DBStore) (chunks : List Chunk)
    (llm : Option String) (max_events : Nat) : String × List CMERecommendation :=
  let question := pyStrip request.question
  if question == "" then (emptyQuestionText, [])
  else if chunks.isEmpty then (noMatchText, [])
  else
    let filtered_events := filteredEventsOf request db chunks max_events
    if filtered_events.isEmpty then (noEligibleText, [])
    else (answerOf llm, buildRecs (maxScoreOf filtered_events) 1 filtered_events)

/-! ## Aggregation lemmas (§4.2) -/

/-- Spec-side rank-score sum: the chunk at 0-based position `idx`
contributes `(n - idx)` to entity `cid` when it owns it; chunks with no
owning entity contribute nowhere. -/
def rankScoreSum (n : Nat) : List Chunk → Nat → Int → ℚ
  | [], _, _ => 0
  | ch :: rest, idx, cid =>
    (if ch.source_id == some cid then ((n - idx : Nat) : ℚ) else 0) +
      rankScoreSum n rest (idx + 1) cid

/-- Score recorded for `cid` in an association map (0 when absent). -/
def lookupScore : List (Int × EventEntry) → Int → ℚ
  | [], _ => 0
  | (k, e) :: rest, cid => if k == cid then e.score else lookupScore rest cid

theorem lookupScore_updMap (m : List (Int × EventEntry)) (cid : Int) (s : ℚ)
    (ch : Chunk) (cid' : Int) :
    lookupScore (updMap m cid s ch) cid' =
      lookupScore m cid' + (if cid = cid' then s else 0) := by
  induction m with
  | nil =>
    by_cases h : cid = cid' <;> simp [updMap, lookupScore, h]
  | cons he rest ih =>
    obtain ⟨k, e⟩ := he
    by_cases hk : k = cid
    · subst hk
      by_cases hk' : k = cid' <;> simp [updMap, lookupScore, hk', add_comm]
    · by_cases hk' : k = cid'
      · have hne : ¬ cid = cid' := fun h => hk (hk'.trans h.symm)
        have hne' : ¬ cid' = cid := fun h => hne h.symm
        simp [updMap, lookupScore, hk, hk', hne, hne']
      · simp [updMap, lookupScore, hk, hk', ih]

theorem lookupScore_chunkScores (n : Nat) (l : List Chunk) :
    ∀ (idx : Nat) (m : List (Int × EventEntry)) (cid : Int),
      lookupScore (chunkScores n l idx m) cid =
        lookupScore m cid + rankScoreSum n l idx cid := by
  induction l with
  | nil => intro idx m cid; simp [chunkScores, rankScoreSum]
  | cons ch rest ih =>
    intro idx m cid
    cases hsrc : ch.source_id with
    | none =>
      simp [chunkScores, hsrc, rankScoreSum, ih]
    | some c =>
      simp only [chunkScores, hsrc, rankScoreSum, ih, lookupScore_updMap]
      by_cases hc : c = cid
      · subst hc
        simp
        ring
      · simp [hc]

theorem insertDesc_perm (x : Int × EventEntry) (l : List (Int × EventEntry)) :
    (insertDesc x l).Perm (x :: l) := by
  induction l with
  | nil => simp [insertDesc]
  | cons y ys ih =>
    by_cases h : x.2.score < y.2.score
    · simp only [insertDesc, if_pos h]
      exact (ih.cons y).trans (List.Perm.swap x y ys)
    · simp [insertDesc, if_neg h]

theorem sortDesc_perm (l : List (Int × EventEntry)) : (sortDesc l).Perm l := by
  induction l with
  | nil => simp [sortDesc]
  | cons a l ih =>
    exact (insertDesc_perm a (sortDesc l)).trans (ih.cons a)

theorem insertDesc_pairwise (x : Int × EventEntry) (l : List (Int × EventEntry))
    (hl : l.Pairwise (fun a b => b.2.score ≤ a.2.score)) :
    (insertDesc x l).Pairwise (fun a b => b.2.score ≤ a.2.score) := by
  induction l with
  | nil => simp [insertDesc]
  | cons y ys ih =>
    rcases List.pairwise_cons.mp hl with ⟨hy, hys⟩
    by_cases h : x.2.score < y.2.score
    · simp only [insertDesc, if_pos h]
      refine List.pairwise_cons.mpr ⟨?_, ih hys⟩
      intro z hz
      rcases List.mem_cons.mp ((insertDesc_perm x ys).mem_iff.mp hz) with hzx | hzys
      · exact hzx ▸ le_of_lt h
      · exact hy z hzys
    · simp only [insertDesc, if_neg h]
      refine List.pairwise_cons.mpr ⟨?_, hl⟩
      intro z hz
      rcases List.mem_cons.mp hz with hzy | hzys
      · exact hzy ▸ le_of_not_lt h
      · exact le_trans (hy z hzys) (le_of_not_lt h)

theorem sortDesc_pairwise (l : List (Int × EventEntry)) :
    (sortDesc l).Pairwise (fun a b => b.2.score ≤ a.2.score) := by
  induction l with
  | nil => simp [sortDesc]
  | cons a l ih => exact insertDesc_pairwise a (sortDesc l) ih

/-- C4: the aggregation step assigns the chunk at 0-based position `i`
the rank-score `(n - i)`, sums rank-scores per owning entity id
(discarding chunks with no owning-entity id), and orders entities by
descending aggregate score; on the chunk list
`[{entity:1},{entity:2},{entity:1}]`, entity 1 aggregates to `4`,
entity 2 to `2`, and entity 1 is ranked first. -/
theorem aggregation_rank_scores :
    (∀ (chunks : List Chunk) (cid : Int),
        lookupScore (cmeMapOf chunks) cid = rankScoreSum chunks.length chunks 0 cid)
    ∧ (∀ chunks : List Chunk,
        (sortedEventsOf chunks).Pairwise (fun a b => b.2.score ≤ a.2.score))
    ∧ (∀ chunks : List Chunk, (sortedEventsOf chunks).Perm (cmeMapOf chunks))
    ∧ sortedEventsOf [⟨some 1, "a"⟩, ⟨some 2, "b"⟩, ⟨some 1, "c"⟩] =
        [(1, ⟨4, [⟨some 1, "a"⟩, ⟨some 1, "c"⟩]⟩), (2, ⟨2, [⟨some 2, "b"⟩]⟩)] := by
  refine ⟨?_, ?_, ?_, ?_⟩
  · intro chunks cid
    simpa [lookupScore] using lookupScore_chunkScores chunks.length chunks 0 [] cid
  · intro chunks
    exact sortDesc_pairwise (cmeMapOf chunks)
  · intro chunks
    exact sortDesc_perm (cmeMapOf chunks)
  · norm_num [sortedEventsOf, cmeMapOf, chunkScores, updMap, sortDesc, insertDesc]

/-! ## Short-circuit and failure-path theorems -/

/-- C6: a request whose question is empty or whitespace-only yields the
fixed guidance answer and an empty recommendation list.  The result is
the same constant for every similarity-search response `chunks`, every
profile store `db`, and every language-model outcome `llm` — i.e. the
short-circuit happens before any collaborator is consulted
(`cme_query.py` lines 46–51 precede the vector-search call, the profile
build, and the LLM call). -/
theorem empty_question_short_circuit (request : AskCMERequest) (db : DBStore)
    (chunks : List Chunk) (llm : Option String) (max_events : Nat)
    (h : pyStrip request.question = "") :
    run_cme_query request db chunks llm max_events = (emptyQuestionText, []) := by
  simp [run_cme_query, h]

/-- Concrete instance of `empty_question_short_circuit`. -/
theorem empty_question_short_circuit_witness :
    pyStrip (" \t " : String) = "" ∧
      run_cme_query ⟨" \t ", none, none, none, none, none, none, none⟩
        ⟨fun _ => none, fun _ => none, fun _ => [], []⟩
        [⟨some 1, "a"⟩] (some "llm answer") 5 = (emptyQuestionText, []) :=
  ⟨by decide,
   empty_question_short_circuit ⟨" \t ", none, none, none, none, none, none, none⟩
     ⟨fun _ => none, fun _ => none, fun _ => [], []⟩
     [⟨some 1, "a"⟩] (some "llm answer") 5 (by decide)⟩

/-- C5: once the pipeline reaches the answer-generation stage
(non-blank question, non-empty chunk list, non-empty filtered candidate
set), a language-model failure (`llm = none`, covering any raised error
or timeout) does not fail the request: the answer is the exact fixed
fallback sentence and the recommendation list is identical to the one
returned had the call succeeded with any content `s`. -/
theorem llm_failure_preserves_recommendations (request : AskCMERequest) (db : DBStore)
    (chunks : List Chunk) (s : String) (max_events : Nat)
    (hq : ¬ pyStrip request.question = "") (hc : ¬ chunks = [])
    (hf : ¬ filteredEventsOf request db chunks max_events = []) :
    (run_cme_query request db chunks none max_events).1 = llmFallbackText ∧
      (run_cme_query request db chunks none max_events).2 =
        (run_cme_query request db chunks (some s) max_events).2 := by
  simp [run_cme_query, answerOf, hq, hc, hf]

/-! ## Concrete inputs used by witnesses and counterexamples -/

/-- A CME event with metadata and 2 credits. -/
def evOne : CMEEvent := ⟨1, "T1", none, none, some 2, none, none, none⟩

/-- A CME event with metadata and 1 credit. -/
def evTwo : CMEEvent := ⟨2, "T2", none, none, some 1, none, none, none⟩

/-- Store with no physician data and two CME events. -/
def dbDemo : DBStore := ⟨fun _ => none, fun _ => none, fun _ => [], [evOne, evTwo]⟩

/-- Anonymous request with a non-blank question. -/
def reqDemo : AskCMERequest := ⟨"find cme", none, none, none, none, none, none, none⟩

/-- Three chunks, best-first, owned by entities 1, 2, 1. -/
def chunksDemo : List Chunk := [⟨some 1, "a"⟩, ⟨some 2, "b"⟩, ⟨some 1, "c"⟩]

/-- Store in which physician 7 has completed both events. -/
def dbCompleted : DBStore :=
  ⟨fun _ => none, fun _ => none,
   fun p => if p == 7 then [some 1, some 2] else [], [evOne, evTwo]⟩

/-- Request from physician 7. -/
def reqPhys : AskCMERequest := ⟨"find cme", some 7, none, none, none, none, none, none⟩

/-- The demo pipeline's filtered candidate list is non-empty. -/
theorem filteredDemo_ne_nil : ¬ filteredEventsOf reqDemo dbDemo chunksDemo 5 = [] := by
  norm_num [filteredEventsOf, filteredNormalEventsOf, profileFiltersOf,
    build_effective_physician_profile, seedProfile, finalizeDefaults,
    applyCompleted, applyPrefRow, applyPhysicianRow, reqDemo, dbDemo, chunksDemo,
    sortedEventsOf, cmeMapOf, chunkScores, updMap, sortDesc, insertDesc,
    takeEligible, eventsByIdGet, eligible, evOne, evTwo, optStrTruthy]
  exact List.cons_ne_nil _ _

/-- Concrete instance of `llm_failure_preserves_recommendations`. -/
theorem llm_failure_preserves_recommendations_witness :
    (¬ pyStrip reqDemo.question = "") ∧ (¬ chunksDemo = []) ∧
      (¬ filteredEventsOf reqDemo dbDemo chunksDemo 5 = []) ∧
      ((run_cme_query reqDemo dbDemo chunksDemo none 5).1 = llmFallbackText ∧
        (run_cme_query reqDemo dbDemo chunksDemo none 5).2 =
          (run_cme_query reqDemo dbDemo chunksDemo (some "a fine answer") 5).2) :=
  ⟨by decide, by decide, filteredDemo_ne_nil,
   llm_failure_preserves_recommendations reqDemo dbDemo chunksDemo "a fine answer" 5
     (by decide) (by decide) filteredDemo_ne_nil⟩

/-! ## Credit-type is inert (§4.3 soft preference) -/

theorem seedProfile_credit_type (request : AskCMERequest) (ct : Option String) :
    seedProfile { request with credit_type := ct } =
      { seedProfile request with credit_type := ct } := rfl

theorem applyPhysicianRow_credit_type (db : DBStore) (pid : Int) (p : Profile)
    (ct : Option String) :
    applyPhysicianRow db pid { p with credit_type := ct } =
      { applyPhysicianRow db pid p with credit_type := ct } := by
  obtain ⟨pid0, sp, st, pf, mc, ct0, tr, mr, comp⟩ := p
  unfold applyPhysicianRow
  cases db.physicianRow pid with
  | none => rfl
  | some row =>
    by_cases h : (!optStrTruthy sp && optStrTruthy row.specialty_name) = true
    · simp [h]
    · simp [h]

theorem applyPrefRow_credit_type (db : DBStore) (pid : Int) (p : Profile)
    (ct : Option String) :
    applyPrefRow db pid { p with credit_type := ct } =
      { applyPrefRow db pid p with credit_type := ct } := by
  obtain ⟨pid0, sp, st, pf, mc, ct0, tr, mr, comp⟩ := p
  unfold applyPrefRow
  cases db.prefRow pid with
  | none => rfl
  | some pr =>
    by_cases h : (!optStrTruthy pf && optStrTruthy pr.modality_pref) = true
    · by_cases h2 : (pyLower (pr.travel_pref.getD "") == "no_travel"
          || pyLower (pr.travel_pref.getD "") == "local_only") = true
      · simp [h, h2]
      · simp [h, h2]
    · by_cases h2 : (pyLower (pr.travel_pref.getD "") == "no_travel"
          || pyLower (pr.travel_pref.getD "") == "local_only") = true
      · simp [h, h2]
      · simp [h, h2]

theorem applyCompleted_credit_type (db : DBStore) (pid : Int) (p : Profile)
    (ct : Option String) :
    applyCompleted db pid { p with credit_type := ct } =
      { applyCompleted db pid p with credit_type := ct } := rfl

theorem finalizeDefaults_credit_type (p : Profile) (ct : Option String) :
    finalizeDefaults { p with credit_type := ct } =
      { finalizeDefaults p with credit_type := ct } := by
  obtain ⟨pid0, sp, st, pf, mc, ct0, tr, mr, comp⟩ := p
  unfold finalizeDefaults
  by_cases h : optStrTruthy pf = true
  · by_cases h2 : (tr == none) = true
    · simp [h, h2]
    · simp [h, h2]
  · by_cases h2 : (tr == none) = true
    · simp [h, h2]
    · simp [h, h2]

/-- The effective profile depends on `request.credit_type` only through
its own `credit_type` field. -/
theorem build_profile_credit_type (db : DBStore) (request : AskCMERequest)
    (ct : Option String) :
    build_effective_physician_profile db { request with credit_type := ct } =
      { build_effective_physician_profile db request with credit_type := ct } := by
  unfold build_effective_physician_profile
  have hseed : seedProfile { request with credit_type := ct } =
      { seedProfile request with credit_type := ct } := rfl
  have hpid : ({ request with credit_type := ct } : AskCMERequest).physician_id =
      request.physician_id := rfl
  rw [hseed, hpid]
  cases request.physician_id with
  | none => exact finalizeDefaults_credit_type _ _
  | some n =>
    dsimp only
    by_cases h : (n == 0) = true
    · rw [if_pos h, if_pos h]
      exact finalizeDefaults_credit_type _ _
    · rw [if_neg h, if_neg h, applyPhysicianRow_credit_type, applyPrefRow_credit_type,
        applyCompleted_credit_type]
      exact finalizeDefaults_credit_type _ _

/-- `_eligible` never consults the credit-type preference (the block is
`pass` in the source). -/
theorem eligible_credit_type (completed_cme_ids : List Int) (min_credits : Option ℚ)
    (preferred_format : Option String) (ct ct' : Option String) :
    eligible completed_cme_ids min_credits preferred_format ct =
      eligible completed_cme_ids min_credits preferred_format ct' := by
  funext ev
  rfl

theorem filteredNormalEventsOf_credit_type (request : AskCMERequest) (db : DBStore)
    (chunks : List Chunk) (max_events : Nat) (ct : Option String) :
    filteredNormalEventsOf { request with credit_type := ct } db chunks max_events =
      filteredNormalEventsOf request db chunks max_events := by
  unfold filteredNormalEventsOf profileFiltersOf
  rw [build_profile_credit_type]
  exact congrArg (fun f => takeEligible db.events f max_events 0 (sortedEventsOf chunks))
    (eligible_credit_type _ _ _ _ _)

theorem filteredEventsOf_credit_type (request : AskCMERequest) (db : DBStore)
    (chunks : List Chunk) (max_events : Nat) (ct : Option String) :
    filteredEventsOf { request with credit_type := ct } db chunks max_events =
      filteredEventsOf request db chunks max_events := by
  unfold filteredEventsOf
  rw [filteredNormalEventsOf_credit_type]

/-- C10: two requests identical except for `credit_type`, evaluated
against the same similarity-search results, the same entity metadata,
and the same profile-store contents, produce identical recommendation
lists (same entity ids, ranks, scores, titles, URLs): the credit-type
preference has no effect on candidate selection or ranking. -/
theorem credit_type_no_effect (request : AskCMERequest) (db : DBStore)
    (chunks : List Chunk) (llm : Option String) (max_events : Nat) (ct : Option String) :
    (run_cme_query { request with credit_type := ct } db chunks llm max_events).2 =
      (run_cme_query request db chunks llm max_events).2 := by
  have hf := filteredEventsOf_credit_type request db chunks max_events ct
  unfold run_cme_query
  rw [hf]

/-! ## Filter-loop and recommendation-builder lemmas -/

/-- `filteredNormalEventsOf` unfolded to its filter loop. -/
theorem filteredNormalEventsOf_eq (request : AskCMERequest) (db : DBStore)
    (chunks : List Chunk) (max_events : Nat) :
    filteredNormalEventsOf request db chunks max_events =
      takeEligible db.events
        (eligible (build_effective_physician_profile db request).completed_cme_ids
          (build_effective_physician_profile db request).min_credits
          ((build_effective_physician_profile db request).preferred_format.map
            (fun s => pyLower (pyStrip s)))
          (build_effective_physician_profile db request).credit_type)
        max_events 0 (sortedEventsOf chunks) := rfl

theorem takeEligible_length (events : List CMEEvent) (elig : CMEEvent → Bool)
    (max_events : Nat) :
    ∀ (l : List (Int × EventEntry)) (count : Nat), count < max_events →
      (takeEligible events elig max_events count l).length + count ≤ max_events := by
  intro l
  induction l with
  | nil =>
    intro count h
    simpa [takeEligible] using Nat.le_of_lt h
  | cons p rest ih =>
    intro count h
    obtain ⟨cme_id, meta⟩ := p
    simp only [takeEligible]
    cases eventsByIdGet events cme_id with
    | none => exact ih count h
    | some ev =>
      dsimp only
      by_cases he : elig ev = true
      · rw [if_pos he]
        by_cases hc : count + 1 ≥ max_events
        · rw [if_pos hc]
          simp only [List.length_singleton]
          omega
        · rw [if_neg hc]
          have := ih (count + 1) (by omega)
          simp only [List.length_cons]
          omega
      · rw [if_neg he]
        exact ih count h

theorem takeEligible_mem (events : List CMEEvent) (elig : CMEEvent → Bool)
    (max_events : Nat) :
    ∀ (l : List (Int × EventEntry)) (count : Nat) (cid : Int) (meta : EventEntry)
      (ev : CMEEvent),
      (cid, meta, ev) ∈ takeEligible events elig max_events count l →
        (cid, meta) ∈ l ∧ eventsByIdGet events cid = some ev ∧ elig ev = true := by
  intro l
  induction l with
  | nil =>
    intro count cid meta ev h
    simp [takeEligible] at h
  | cons p rest ih =>
    intro count cid meta ev h
    obtain ⟨pcid, pmeta⟩ := p
    simp only [takeEligible] at h
    cases hfind : eventsByIdGet events pcid with
    | none =>
      rw [hfind] at h
      obtain ⟨h1, h2, h3⟩ := ih count cid meta ev h
      exact ⟨List.mem_cons_of_mem _ h1, h2, h3⟩
    | some ev0 =>
      rw [hfind] at h
      dsimp only at h
      by_cases he : elig ev0 = true
      · rw [if_pos he] at h
        by_cases hc : count + 1 ≥ max_events
        · rw [if_pos hc] at h
          simp only [List.mem_singleton, Prod.mk.injEq] at h
          obtain ⟨e1, e2, e3⟩ := h
          subst e1; subst e2; subst e3
          exact ⟨List.mem_cons_self _ _, hfind, he⟩
        · rw [if_neg hc] at h
          rcases List.mem_cons.mp h with heq | hmem
          · simp only [Prod.mk.injEq] at heq
            obtain ⟨e1, e2, e3⟩ := heq
            subst e1; subst e2; subst e3
            exact ⟨List.mem_cons_self _ _, hfind, he⟩
          · obtain ⟨h1, h2, h3⟩ := ih (count + 1) cid meta ev hmem
            exact ⟨List.mem_cons_of_mem _ h1, h2, h3⟩
      · rw [if_neg he] at h
        obtain ⟨h1, h2, h3⟩ := ih count cid meta ev h
        exact ⟨List.mem_cons_of_mem _ h1, h2, h3⟩

/-- The event found by `events_by_id.get(cid)` carries `id = cid` (the
dict is keyed by `int(e.id)`). -/
theorem eventsByIdGet_id (events : List CMEEvent) (cid : Int) (ev : CMEEvent)
    (h : eventsByIdGet events cid = some ev) : ev.id = cid := by
  have := List.find?_some h
  simpa using this

theorem buildRecs_length (ms : ℚ) :
    ∀ (r : Nat) (l : List (Int × EventEntry × CMEEvent)),
      (buildRecs ms r l).length = l.length := by
  intro r l
  induction l generalizing r with
  | nil => simp [buildRecs]
  | cons t rest ih =>
    obtain ⟨cid, meta, ev⟩ := t
    simp [buildRecs, ih]

theorem buildRecs_map_rank (ms : ℚ) :
    ∀ (r : Nat) (l : List (Int × EventEntry × CMEEvent)),
      (buildRecs ms r l).map (fun x => x.rank) = List.range' r l.length := by
  intro r l
  induction l generalizing r with
  | nil => simp [buildRecs]
  | cons t rest ih =>
    obtain ⟨cid, meta, ev⟩ := t
    simp [buildRecs, ih, List.range']

theorem buildRecs_map_id (ms : ℚ) :
    ∀ (r : Nat) (l : List (Int × EventEntry × CMEEvent)),
      (buildRecs ms r l).map (fun x => x.cme_event_id) = l.map (fun t => t.1) := by
  intro r l
  induction l generalizing r with
  | nil => simp [buildRecs]
  | cons t rest ih =>
    obtain ⟨cid, meta, ev⟩ := t
    simp [buildRecs, ih]

theorem buildRecs_map_score (ms : ℚ) :
    ∀ (r : Nat) (l : List (Int × EventEntry × CMEEvent)),
      (buildRecs ms r l).map (fun x => x.score) =
        l.map (fun t => some (if ms == 0 then 0 else t.2.1.score / ms)) := by
  intro r l
  induction l generalizing r with
  | nil => simp [buildRecs]
  | cons t rest ih =>
    obtain ⟨cid, meta, ev⟩ := t
    simp [buildRecs, ih]

/-- An eligible event is not in the completed list (first clause of
`_eligible`). -/
theorem eligible_not_completed (completed : List Int) (mc : Option ℚ)
    (pf ctp : Option String) (ev : CMEEvent)
    (h : eligible completed mc pf ctp ev = true) : ¬ ev.id ∈ completed := by
  intro hmem
  simp [eligible] at h
  exact h.1 hmem

/-- C1 (amended): on the normal filtering path — whenever at least one
candidate survives the eligibility filter — no entity id recorded as
completed in the physician's effective profile appears in the
recommendation list returned by `run_cme_query`, regardless of how
highly it scored.  (The claim's extension to the over-filtering
fallback path fails: `cme_query.py` lines 200–206 re-admit completed
entities; see the counterexample.) -/
theorem completed_not_recommended_normal_path (request : AskCMERequest) (db : DBStore)
    (chunks : List Chunk) (llm : Option String) (max_events : Nat)
    (h : ¬ filteredNormalEventsOf request db chunks max_events = []) :
    ((run_cme_query request db chunks llm max_events).2.map
        (fun x => x.cme_event_id)).Disjoint
      (build_effective_physician_profile db request).completed_cme_ids := by
  by_cases hq : pyStrip request.question = ""
  · simp [run_cme_query, hq, List.Disjoint]
  by_cases hc : chunks.isEmpty = true
  · simp [run_cme_query, hq, hc, List.Disjoint]
  have hne : (filteredNormalEventsOf request db chunks max_events).isEmpty = false := by
    cases hl : filteredNormalEventsOf request db chunks max_events with
    | nil => exact absurd hl h
    | cons a l => rfl
  have hfe : filteredEventsOf request db chunks max_events =
      filteredNormalEventsOf request db chunks max_events := by
    simp [filteredEventsOf, hne]
  have hfE : (filteredEventsOf request db chunks max_events).isEmpty = false := by
    rw [hfe]; exact hne
  have hrun : (run_cme_query request db chunks llm max_events).2 =
      buildRecs (maxScoreOf (filteredEventsOf request db chunks max_events)) 1
        (filteredEventsOf request db chunks max_events) := by
    simp [run_cme_query, hq, hc, hfE]
  rw [hrun, hfe, buildRecs_map_id]
  intro a ha hacomp
  rcases List.mem_map.mp ha with ⟨t, hmem, heq⟩
  obtain ⟨cid, meta, ev⟩ := t
  rw [filteredNormalEventsOf_eq] at hmem
  obtain ⟨hpair, hfind, helig⟩ := takeEligible_mem _ _ _ _ _ _ _ _ hmem
  have hid := eventsByIdGet_id _ _ _ hfind
  have heq' : cid = a := heq
  refine eligible_not_completed _ _ _ _ _ helig ?_
  rw [hid, heq']
  exact hacomp

/-- The demo physician pipeline's normal filter pass is non-empty. -/
theorem normalDemo_ne_nil : ¬ filteredNormalEventsOf reqDemo dbDemo chunksDemo 5 = [] := by
  norm_num [filteredNormalEventsOf, profileFiltersOf,
    build_effective_physician_profile, seedProfile, finalizeDefaults,
    applyCompleted, applyPrefRow, applyPhysicianRow, reqDemo, dbDemo, chunksDemo,
    sortedEventsOf, cmeMapOf, chunkScores, updMap, sortDesc, insertDesc,
    takeEligible, eventsByIdGet, eligible, evOne, evTwo, optStrTruthy]
  exact List.cons_ne_nil _ _

/-- Concrete instance of `completed_not_recommended_normal_path`. -/
theorem completed_not_recommended_normal_path_witness :
    (¬ filteredNormalEventsOf reqDemo dbDemo chunksDemo 5 = []) ∧
      ((run_cme_query reqDemo dbDemo chunksDemo none 5).2.map
          (fun x => x.cme_event_id)).Disjoint
        (build_effective_physician_profile dbDemo reqDemo).completed_cme_ids :=
  ⟨normalDemo_ne_nil,
   completed_not_recommended_normal_path reqDemo dbDemo chunksDemo none 5 normalDemo_ne_nil⟩

/-- C1 counterexample: physician 7 has completed entities 1 and 2; both
candidate entities are completed, so the normal filter pass is empty
and the fallback returns the completed entities as recommendations —
refuting the claim for the fallback path. -/
theorem completed_recommended_via_fallback :
    (build_effective_physician_profile dbCompleted reqPhys).completed_cme_ids = [1, 2]
    ∧ (run_cme_query reqPhys dbCompleted chunksDemo (some "ok") 5).2.map
        (fun x => x.cme_event_id) = [1, 2]
    ∧ ¬ ((run_cme_query reqPhys dbCompleted chunksDemo (some "ok") 5).2.map
          (fun x => x.cme_event_id)).Disjoint
        (build_effective_physician_profile dbCompleted reqPhys).completed_cme_ids := by
  have h1 : (build_effective_physician_profile dbCompleted reqPhys).completed_cme_ids
      = [1, 2] := by decide
  have h2 : (run_cme_query reqPhys dbCompleted chunksDemo (some "ok") 5).2.map
      (fun x => x.cme_event_id) = [1, 2] := by
    have hq : pyStrip "find cme" = "find cme" := by decide
    norm_num [run_cme_query, filteredEventsOf, filteredNormalEventsOf, profileFiltersOf,
      build_effective_physician_profile, seedProfile, finalizeDefaults,
      applyCompleted, applyPrefRow, applyPhysicianRow, reqPhys, dbCompleted, chunksDemo,
      sortedEventsOf, cmeMapOf, chunkScores, updMap, sortDesc, insertDesc,
      takeEligible, eventsByIdGet, eligible, evOne, evTwo, optStrTruthy,
      fallbackEventsOf, buildRecs, maxScoreOf, answerOf, hq, urlResolve]
    simp
  refine ⟨h1, h2, ?_⟩
  rw [h2, h1]
  intro hd
  exact @hd 1 (by simp) (by simp)

/-- C2: in `run_cme_query`, if zero candidates survive the eligibility
filter, the filter output is discarded and replaced by the fallback —
the top `max_events` entries of the score-ordered candidate list,
keeping those with metadata present and ignoring the filter predicate;
and if that fallback is also empty, the pipeline returns the fixed
no-candidates answer together with an empty recommendation list rather
than partial results. -/
theorem over_filter_fallback (request : AskCMERequest) (db : DBStore)
    (chunks : List Chunk) (llm : Option String) (max_events : Nat)
    (hq : ¬ pyStrip request.question = "") (hc : ¬ chunks = [])
    (h0 : filteredNormalEventsOf request db chunks max_events = []) :
    filteredEventsOf request db chunks max_events = fallbackEventsOf db chunks max_events
    ∧ fallbackEventsOf db chunks max_events =
        ((sortedEventsOf chunks).take max_events).filterMap
          (fun p => (eventsByIdGet db.events p.1).map (fun ev => (p.1, p.2, ev)))
    ∧ run_cme_query request db chunks llm max_events =
        (if (fallbackEventsOf db chunks max_events).isEmpty then (noEligibleText, [])
         else (answerOf llm,
           buildRecs (maxScoreOf (fallbackEventsOf db chunks max_events)) 1
             (fallbackEventsOf db chunks max_events))) := by
  have h1 : filteredEventsOf request db chunks max_events =
      fallbackEventsOf db chunks max_events := by
    simp [filteredEventsOf, h0]
  refine ⟨h1, rfl, ?_⟩
  simp [run_cme_query, h1, hq, hc]

/-- Physician 7's normal filter pass over the demo candidates is empty
(every candidate is completed). -/
theorem normalPhys_empty : filteredNormalEventsOf reqPhys dbCompleted chunksDemo 5 = [] := by
  norm_num [filteredNormalEventsOf, profileFiltersOf,
    build_effective_physician_profile, seedProfile, finalizeDefaults,
    applyCompleted, applyPrefRow, applyPhysicianRow, reqPhys, dbCompleted, chunksDemo,
    sortedEventsOf, cmeMapOf, chunkScores, updMap, sortDesc, insertDesc,
    takeEligible, eventsByIdGet, eligible, evOne, evTwo, optStrTruthy]

/-- Concrete instance of `over_filter_fallback`. -/
theorem over_filter_fallback_witness :
    (¬ pyStrip reqPhys.question = "") ∧ (¬ chunksDemo = []) ∧
      filteredNormalEventsOf reqPhys dbCompleted chunksDemo 5 = [] ∧
      (filteredEventsOf reqPhys dbCompleted chunksDemo 5 =
          fallbackEventsOf dbCompleted chunksDemo 5
        ∧ fallbackEventsOf dbCompleted chunksDemo 5 =
            ((sortedEventsOf chunksDemo).take 5).filterMap
              (fun p => (eventsByIdGet dbCompleted.events p.1).map (fun ev => (p.1, p.2, ev)))
        ∧ run_cme_query reqPhys dbCompleted chunksDemo (some "ok") 5 =
            (if (fallbackEventsOf dbCompleted chunksDemo 5).isEmpty then (noEligibleText, [])
             else (answerOf (some "ok"),
               buildRecs (maxScoreOf (fallbackEventsOf dbCompleted chunksDemo 5)) 1
                 (fallbackEventsOf dbCompleted chunksDemo 5)))) :=
  ⟨by decide, by decide, normalPhys_empty,
   over_filter_fallback reqPhys dbCompleted chunksDemo (some "ok") 5
     (by decide) (by decide) normalPhys_empty⟩

/-! ## Length and rank properties -/

theorem fallbackEventsOf_length_le (db : DBStore) (chunks : List Chunk)
    (max_events : Nat) :
    (fallbackEventsOf db chunks max_events).length ≤ max_events :=
  le_trans (List.length_filterMap_le _ _)
    (List.length_take_le max_events (sortedEventsOf chunks))

theorem takeEligible_length_max (events : List CMEEvent) (elig : CMEEvent → Bool)
    (max_events : Nat) :
    ∀ (l : List (Int × EventEntry)) (count : Nat),
      (takeEligible events elig max_events count l).length ≤
        max (max_events - count) 1 := by
  intro l
  induction l with
  | nil =>
    intro count
    simp [takeEligible]
  | cons p rest ih =>
    intro count
    obtain ⟨cme_id, meta⟩ := p
    simp only [takeEligible]
    cases eventsByIdGet events cme_id with
    | none => exact ih count
    | some ev =>
      dsimp only
      by_cases he : elig ev = true
      · rw [if_pos he]
        by_cases hc : count + 1 ≥ max_events
        · rw [if_pos hc]
          simp only [List.length_singleton]
          omega
        · rw [if_neg hc]
          have h2 := ih (count + 1)
          simp only [List.length_cons]
          omega
      · rw [if_neg he]
        exact ih count

theorem filteredEventsOf_length_le (request : AskCMERequest) (db : DBStore)
    (chunks : List Chunk) (max_events : Nat) :
    (filteredEventsOf request db chunks max_events).length ≤ max max_events 1 := by
  unfold filteredEventsOf
  by_cases he : (filteredNormalEventsOf request db chunks max_events).isEmpty = true
  · rw [if_pos he]
    have h2 := fallbackEventsOf_length_le db chunks max_events
    omega
  · rw [if_neg he, filteredNormalEventsOf_eq]
    have h2 := takeEligible_length_max db.events
      (eligible (build_effective_physician_profile db request).completed_cme_ids
        (build_effective_physician_profile db request).min_credits
        ((build_effective_physician_profile db request).preferred_format.map
          (fun s => pyLower (pyStrip s)))
        (build_effective_physician_profile db request).credit_type)
      max_events (sortedEventsOf chunks) 0
    omega

/-- C7 (amended): for every request, store, chunk list, language-model
outcome and `max_events`, the returned recommendation list has length
at most `max max_events 1` — i.e. at most `max_events` whenever
`max_events ≥ 1`; the degenerate `max_events = 0` case admits one
entry because the filter loop appends before checking the bound (see
the counterexample) — and, unconditionally, its rank fields are
exactly `1..length`: 1-based, contiguous, unique, and equal to each
item's position. -/
theorem recommendations_capped_and_ranked (request : AskCMERequest) (db : DBStore)
    (chunks : List Chunk) (llm : Option String) (max_events : Nat) :
    (run_cme_query request db chunks llm max_events).2.length ≤ max max_events 1
    ∧ (run_cme_query request db chunks llm max_events).2.map (fun x => x.rank) =
        List.range' 1 (run_cme_query request db chunks llm max_events).2.length := by
  by_cases hq : pyStrip request.question = ""
  · simp [run_cme_query, hq]
  by_cases hc : chunks.isEmpty = true
  · simp [run_cme_query, hq, hc]
  by_cases hf : (filteredEventsOf request db chunks max_events).isEmpty = true
  · simp [run_cme_query, hq, hc, hf]
  · have hrun : (run_cme_query request db chunks llm max_events).2 =
        buildRecs (maxScoreOf (filteredEventsOf request db chunks max_events)) 1
          (filteredEventsOf request db chunks max_events) := by
      simp [run_cme_query, hq, hc, hf]
    constructor
    · rw [hrun, buildRecs_length]
      exact filteredEventsOf_length_le request db chunks max_events
    · rw [hrun, buildRecs_map_rank, buildRecs_length]

/-- C7 counterexample: at `max_events = 0` the filter loop appends a
candidate before checking `len(filtered_events) >= max_events`, so the
recommendation list has length 1 > 0, refuting `length ≤ max_events`
for every input. -/
theorem recommendations_cap_fails_at_zero :
    ¬ ((run_cme_query reqDemo dbDemo chunksDemo none 0).2.length ≤ 0) := by
  have hq : pyStrip "find cme" = "find cme" := by decide
  have hlen : (run_cme_query reqDemo dbDemo chunksDemo none 0).2.length = 1 := by
    norm_num [run_cme_query, filteredEventsOf, filteredNormalEventsOf, profileFiltersOf,
      build_effective_physician_profile, seedProfile, finalizeDefaults,
      applyCompleted, applyPrefRow, applyPhysicianRow, reqDemo, dbDemo, chunksDemo,
      sortedEventsOf, cmeMapOf, chunkScores, updMap, sortDesc, insertDesc,
      takeEligible, eventsByIdGet, eligible, evOne, evTwo, optStrTruthy,
      fallbackEventsOf, buildRecs, maxScoreOf, answerOf, hq, urlResolve]
    simp
  omega

/-! ## Score positivity and normalization (§4.6) -/

theorem updMap_pos (cid : Int) (s : ℚ) (ch : Chunk) (hs : 0 < s) :
    ∀ (m : List (Int × EventEntry)), (∀ p ∈ m, 0 < p.2.score) →
      ∀ p ∈ updMap m cid s ch, 0 < p.2.score := by
  intro m
  induction m with
  | nil =>
    intro hm p hp
    simp only [updMap, List.mem_singleton] at hp
    subst hp
    exact hs
  | cons q rest ih =>
    intro hm p hp
    obtain ⟨k, e⟩ := q
    simp only [updMap] at hp
    by_cases hk : (k == cid) = true
    · rw [if_pos hk] at hp
      rcases List.mem_cons.mp hp with h1 | h2
      · subst h1
        exact add_pos (hm (k, e) (List.mem_cons_self _ _)) hs
      · exact hm p (List.mem_cons_of_mem _ h2)
    · rw [if_neg hk] at hp
      rcases List.mem_cons.mp hp with h1 | h2
      · subst h1
        exact hm (k, e) (List.mem_cons_self _ _)
      · exact ih (fun r hr => hm r (List.mem_cons_of_mem _ hr)) p h2

theorem chunkScores_pos (n : Nat) :
    ∀ (l : List Chunk) (idx : Nat) (m : List (Int × EventEntry)),
      idx + l.length ≤ n → (∀ p ∈ m, 0 < p.2.score) →
      ∀ p ∈ chunkScores n l idx m, 0 < p.2.score := by
  intro l
  induction l with
  | nil =>
    intro idx m hn hm p hp
    simpa [chunkScores] using hm p hp
  | cons ch rest ih =>
    intro idx m hn hm p hp
    have hn' : idx + 1 + rest.length ≤ n := by
      simp only [List.length_cons] at hn
      omega
    cases hsrc : ch.source_id with
    | none =>
      simp only [chunkScores, hsrc] at hp
      exact ih (idx + 1) m hn' hm p hp
    | some c =>
      simp only [chunkScores, hsrc] at hp
      have hidx : idx < n := by
        simp only [List.length_cons] at hn
        omega
      have hs : 0 < ((n - idx : Nat) : ℚ) := by
        exact_mod_cast Nat.sub_pos_of_lt hidx
      exact ih (idx + 1) _ hn' (updMap_pos c _ ch hs m hm) p hp

theorem cmeMapOf_pos (chunks : List Chunk) :
    ∀ p ∈ cmeMapOf chunks, 0 < p.2.score :=
  chunkScores_pos chunks.length chunks 0 [] (by simp) (by simp)

theorem sortedEventsOf_pos (chunks : List Chunk) :
    ∀ p ∈ sortedEventsOf chunks, 0 < p.2.score := fun p hp =>
  cmeMapOf_pos chunks p ((sortDesc_perm (cmeMapOf chunks)).mem_iff.mp hp)

/-- Every filtered candidate (normal or fallback path) carries an entry
of the score-ordered candidate list. -/
theorem filteredEventsOf_pair_mem (request : AskCMERequest) (db : DBStore)
    (chunks : List Chunk) (max_events : Nat) :
    ∀ t ∈ filteredEventsOf request db chunks max_events,
      ((t : Int × EventEntry × CMEEvent).1, t.2.1) ∈ sortedEventsOf chunks := by
  intro t ht
  obtain ⟨cid, meta, ev⟩ := t
  unfold filteredEventsOf at ht
  by_cases he : (filteredNormalEventsOf request db chunks max_events).isEmpty = true
  · rw [if_pos he] at ht
    unfold fallbackEventsOf at ht
    rcases List.mem_filterMap.mp ht with ⟨p, hp, hmap⟩
    obtain ⟨p1, p2⟩ := p
    cases hfind : eventsByIdGet db.events p1 with
    | none =>
      rw [hfind] at hmap
      simp at hmap
    | some ev0 =>
      rw [hfind] at hmap
      simp only [Option.map_some', Option.some.injEq, Prod.mk.injEq] at hmap
      obtain ⟨e1, e2, e3⟩ := hmap
      subst e1; subst e2
      exact List.mem_of_mem_take hp
  · rw [if_neg he] at ht
    rw [filteredNormalEventsOf_eq] at ht
    exact (takeEligible_mem _ _ _ _ _ _ _ _ ht).1

/-- C8: for a non-empty filtered candidate set, each recommendation's
normalized score equals its candidate's aggregate score divided by the
top (first) candidate's aggregate score, and the top-ranked
recommendation's normalized score is exactly 1.  (The code's
guard — yield 0 when the top score is zero — is unreachable here: every
aggregate score is a sum of positive rank-scores, so the top score is
provably positive.) -/
theorem normalized_scores (request : AskCMERequest) (db : DBStore)
    (chunks : List Chunk) (llm : Option String) (max_events : Nat)
    (hq : ¬ pyStrip request.question = "") (hc : ¬ chunks = [])
    (hf : ¬ filteredEventsOf request db chunks max_events = []) :
    (run_cme_query request db chunks llm max_events).2.map (fun x => x.score) =
      (filteredEventsOf request db chunks max_events).map
        (fun t => some (t.2.1.score /
          maxScoreOf (filteredEventsOf request db chunks max_events)))
    ∧ ((run_cme_query request db chunks llm max_events).2.head?.map (fun x => x.score)) =
        some (some 1) := by
  have hE : (filteredEventsOf request db chunks max_events).isEmpty = false := by
    cases hl : filteredEventsOf request db chunks max_events with
    | nil => exact absurd hl hf
    | cons a l => rfl
  have hrun : (run_cme_query request db chunks llm max_events).2 =
      buildRecs (maxScoreOf (filteredEventsOf request db chunks max_events)) 1
        (filteredEventsOf request db chunks max_events) := by
    simp [run_cme_query, hq, hc, hE]
  cases hl : filteredEventsOf request db chunks max_events with
  | nil => exact absurd hl hf
  | cons t rest =>
    have htpos : 0 < t.2.1.score := by
      have hmem : t ∈ filteredEventsOf request db chunks max_events := by
        rw [hl]; exact List.mem_cons_self _ _
      exact sortedEventsOf_pos chunks _ (filteredEventsOf_pair_mem request db chunks max_events t hmem)
    have hms : maxScoreOf (t :: rest) = t.2.1.score := rfl
    have hne : t.2.1.score ≠ 0 := ne_of_gt htpos
    have hbeq : (maxScoreOf (t :: rest) == 0) = false := by
      rw [hms]
      simp [hne]
    constructor
    · rw [hrun, hl, buildRecs_map_score, hms]
      simp [hbeq, hms, hne]
    · rw [hrun, hl]
      simp [buildRecs, hbeq, hms, hne, div_self hne]

/-- Concrete instance of `normalized_scores`. -/
theorem normalized_scores_witness :
    (¬ pyStrip reqDemo.question = "") ∧ (¬ chunksDemo = []) ∧
      (¬ filteredEventsOf reqDemo dbDemo chunksDemo 5 = []) ∧
      ((run_cme_query reqDemo dbDemo chunksDemo none 5).2.map (fun x => x.score) =
          (filteredEventsOf reqDemo dbDemo chunksDemo 5).map
            (fun t => some (t.2.1.score / maxScoreOf (filteredEventsOf reqDemo dbDemo chunksDemo 5)))
        ∧ ((run_cme_query reqDemo dbDemo chunksDemo none 5).2.head?.map (fun x => x.score)) =
            some (some 1)) :=
  ⟨by decide, by decide, filteredDemo_ne_nil,
   normalized_scores reqDemo dbDemo chunksDemo none 5 (by decide) (by decide) filteredDemo_ne_nil⟩

/-! ## Request travel override and title fallback -/

/-- Store in which physician 7 has a stored preference row whose
`travel_pref` is `"flexible"` (not a no-travel value). -/
def dbTravel : DBStore :=
  ⟨fun _ => none, fun p => if p == 7 then some ⟨some "flexible", none⟩ else none,
   fun _ => [], []⟩

/-- Request from physician 7 that explicitly sets `travel_ok := false`. -/
def reqTravel : AskCMERequest := ⟨"q", some 7, none, none, none, none, none, some false⟩

/-- C3 (code bug): the profile builder never reads `request.travel_ok`.
With an explicit `travel_ok = false` in the request and a stored
`travel_pref` of `"flexible"`, the effective profile has
`travel_ok = true` — the stored preference (and, absent one, the
default `true`) wins over the explicit request value, contradicting the
declared precedence of explicit overrides.  The third conjunct shows
the profile value is the same whatever the request supplies. -/
theorem travel_ok_override_ignored :
    reqTravel.travel_ok = some false
    ∧ (build_effective_physician_profile dbTravel reqTravel).travel_ok = some true
    ∧ (build_effective_physician_profile dbTravel
        { reqTravel with travel_ok := some true }).travel_ok = some true := by
  refine ⟨rfl, ?_, ?_⟩ <;> decide

/-- Event 7 whose stored title is the empty string. -/
def evBlankTitle : CMEEvent := ⟨7, "", none, none, none, none, none, none⟩

/-- Store holding only the blank-titled event. -/
def dbBlankTitle : DBStore := ⟨fun _ => none, fun _ => none, fun _ => [], [evBlankTitle]⟩

/-- A single chunk owned by entity 7. -/
def chunksBlank : List Chunk := [⟨some 7, "x"⟩]

/-- C9 (code bug): `getattr(ev, "title", f"CME {cme_id}")` returns the
stored attribute — the placeholder default never fires because ORM
instances always expose the `title` attribute — so a candidate whose
metadata lacks a title yields a recommendation whose title is the
stored empty string, not the generated `CME 7` placeholder. -/
theorem missing_title_passes_through :
    (run_cme_query reqDemo dbBlankTitle chunksBlank (some "ok") 5).2.map (fun x => x.title)
      = [""] := by
  have hq : pyStrip "find cme" = "find cme" := by decide
  norm_num [run_cme_query, filteredEventsOf, filteredNormalEventsOf, profileFiltersOf,
    build_effective_physician_profile, seedProfile, finalizeDefaults,
    applyCompleted, applyPrefRow, applyPhysicianRow, reqDemo, dbBlankTitle, chunksBlank,
    sortedEventsOf, cmeMapOf, chunkScores, updMap, sortDesc, insertDesc,
    takeEligible, eventsByIdGet, eligible, evBlankTitle, optStrTruthy,
    fallbackEventsOf, buildRecs, maxScoreOf, answerOf, hq, urlResolve]
  simp
